import Mathlib

/-!
Shallow embedding of `internal/cheapoffers/cheapoffers.go` from the
google-flights-mcp repository.

Modelling choices:
* `time.Time` dates are modelled as natural numbers (`Date := Nat`); the code
  only compares dates with `Equal`/`Before`, which becomes `=`/`<` on `Nat`.
* Go `float64` prices are modelled as rationals (`Price := ℚ`); the code never
  performs arithmetic on prices, only `==`, `<` and `>=` comparisons, which on
  non-NaN floats behave exactly like the order on `ℚ`.
* The external pricing client (`flights.Session`) is modelled as a record of
  pure functions returning `Except`: `GetPriceGraph`, `GetOffers` (which in Go
  returns `([]FullOffer, *PriceRange, error)`, i.e. a list plus an optional
  price range), and `SerializeURL`.
* Every operation additionally returns the list of pricing-client calls it
  issued (`List Call`), so that "issues zero client calls" /
  "never starts later searches" claims are statable.
* The goroutine fan-out/fan-in of `findForTripLength` is modelled by running
  each refinement task as a pure function of the client and collecting the
  per-candidate outcomes; the nondeterministic channel arrival order is an
  explicit parameter `sched` (any permutation of the outcome list), with the
  candidate order `id` as the canonical schedule.
* `sort.Slice` (an arbitrary, unstable comparator-respecting sort) is modelled
  by `List.insertionSort`, one particular comparator-respecting sort.
-/

namespace CheapOffers

/-- Dates: `time.Time` restricted to the operations the code uses. -/
abbrev Date := Nat

/-- Monetary prices: Go `float64`, used only through order comparisons. -/
abbrev Price := ℚ

/-- Errors are descriptive messages (`fmt.Errorf` / client errors). -/
abbrev Err := String

/-- `flights.Options`: an opaque travel-options bundle, passed through
unchanged; its content never influences the engine, so it is abstracted to a
tag. -/
structure Options where
  tag : Nat
deriving DecidableEq, Repr

/-- One coarse price-graph candidate (`flights.PriceGraphOffer`), restricted
to the fields the engine reads. -/
structure PriceGraphOffer where
  startDate : Date
  returnDate : Date
deriving DecidableEq, Repr

/-- One detailed offer (`flights.FullOffer`), restricted to the fields the
engine reads. -/
structure FullOffer where
  startDate : Date
  returnDate : Date
  srcAirportCode : String
  dstAirportCode : String
  price : Price
deriving DecidableEq, Repr

/-- The route baseline (`flights.PriceRange`). -/
structure PriceRange where
  low : Price
  high : Price
deriving DecidableEq, Repr

/-- Arguments of `Session.GetPriceGraph` (`flights.PriceGraphArgs`). -/
structure PriceGraphArgs where
  rangeStartDate : Date
  rangeEndDate : Date
  tripLength : Int
  srcCities : List String
  dstCities : List String
  options : Options
deriving DecidableEq, Repr

/-- Arguments of `Session.GetOffers` / `Session.SerializeURL`
(`flights.Args`); fields not set at a Go call site are the zero value
(empty list). -/
structure FlightsArgs where
  date : Date
  returnDate : Date
  srcCities : List String
  dstCities : List String
  srcAirports : List String
  dstAirports : List String
  options : Options
deriving DecidableEq, Repr

/-- The pricing client: `flights.Session` as consumed by the engine.
`getOffers` returns the detailed offers together with the optional route
baseline (`*flights.PriceRange`, `none` = Go `nil`). -/
structure Session where
  getPriceGraph : PriceGraphArgs → Except Err (List PriceGraphOffer)
  getOffers : FlightsArgs → Except Err (List FullOffer × Option PriceRange)
  serializeURL : FlightsArgs → Except Err String

/-- `cheapoffers.Args`: the search request. -/
structure Args where
  rangeStartDate : Date
  rangeEndDate : Date
  tripLengths : List Int
  srcCities : List String
  dstCities : List String
  options : Options
deriving DecidableEq, Repr

/-- `cheapoffers.Result`: one qualifying itinerary. -/
structure Result where
  startDate : Date
  returnDate : Date
  srcAirport : String
  dstAirport : String
  price : Price
  tripLength : Int
  shareableLink : String
deriving DecidableEq, Repr

/-- A record of one pricing-client call, used to state trace properties. -/
inductive Call where
  | priceGraph (a : PriceGraphArgs)
  | offers (a : FlightsArgs)
  | link (a : FlightsArgs)
deriving DecidableEq, Repr

instance {ε α : Type} [DecidableEq ε] [DecidableEq α] : DecidableEq (Except ε α) :=
  fun a b =>
    match a, b with
    | .error e, .error f =>
      if h : e = f then .isTrue (by rw [h]) else .isFalse (by simp [h])
    | .error _, .ok _ => .isFalse (by simp)
    | .ok _, .error _ => .isFalse (by simp)
    | .ok x, .ok y =>
      if h : x = y then .isTrue (by rw [h]) else .isFalse (by simp [h])

/-- `validateArgs` (cheapoffers.go:210-229), check for check. -/
def validateArgs (args : Args) : Except Err Unit :=
  if args.tripLengths.isEmpty then
    .error "at least one trip length is required"
  else if args.tripLengths.any (fun l => l ≤ 0) then
    .error "trip lengths must be positive"
  else if args.rangeEndDate < args.rangeStartDate then
    .error "rangeEndDate must be on or after rangeStartDate"
  else if args.srcCities.isEmpty then
    .error "at least one source city is required"
  else if args.dstCities.isEmpty then
    .error "at least one destination city is required"
  else
    .ok ()

/-- One iteration of the best-offer selection loop (cheapoffers.go:118-125):
skip the offer if its price is exactly `0`; otherwise take it if nothing is
selected yet (`bestOffer.Price == 0`) or it is strictly cheaper. -/
def bestStep (best : Option FullOffer) (fullOffer : FullOffer) : Option FullOffer :=
  if fullOffer.price = 0 then best
  else
    match best with
    | none => some fullOffer
    | some b => if fullOffer.price < b.price then some fullOffer else some b

/-- The best-offer selection loop (cheapoffers.go:117-128): Go's zero-valued
`bestOffer` with `Price == 0` meaning "none selected yet" becomes an
`Option`-valued fold. -/
def selectBestOffer (fullOffers : List FullOffer) : Option FullOffer :=
  fullOffers.foldl bestStep none

/-- The `flights.Args` of the first `GetOffers` call of a refinement task
(cheapoffers.go:101-110): the candidate's dates, the request's city sets. -/
def candidateArgs (args : Args) (offer : PriceGraphOffer) : FlightsArgs :=
  { date := offer.startDate
    returnDate := offer.returnDate
    srcCities := args.srcCities
    dstCities := args.dstCities
    srcAirports := []
    dstAirports := []
    options := args.options }

/-- The `flights.Args` of the baseline `GetOffers` call and of `SerializeURL`
(cheapoffers.go:130-139 and 153-162): the winning offer's dates and airport
codes. -/
def routeArgs (args : Args) (best : FullOffer) : FlightsArgs :=
  { date := best.startDate
    returnDate := best.returnDate
    srcCities := []
    dstCities := []
    srcAirports := [best.srcAirportCode]
    dstAirports := [best.dstAirportCode]
    options := args.options }

/-- What one refinement task sends on the channel: an error, a `Result`, or
nothing (`.ok none`). -/
abbrev TaskOutcome := Except Err (Option Result)

/-- One refinement task (the goroutine body, cheapoffers.go:98-180), as a pure
function of the client, together with the client calls it issues. -/
def refineCandidate (session : Session) (args : Args) (tripLength : Int)
    (offer : PriceGraphOffer) : TaskOutcome × List Call :=
  match session.getOffers (candidateArgs args offer) with
  | .error e => (.error e, [.offers (candidateArgs args offer)])
  | .ok (fullOffers, _) =>
    match selectBestOffer fullOffers with
    | none => (.ok none, [.offers (candidateArgs args offer)])
    | some best =>
      match session.getOffers (routeArgs args best) with
      | .error e =>
        (.error e, [.offers (candidateArgs args offer), .offers (routeArgs args best)])
      | .ok (_, none) =>
        (.ok none, [.offers (candidateArgs args offer), .offers (routeArgs args best)])
      | .ok (_, some priceRange) =>
        if priceRange.low ≤ best.price then
          (.ok none, [.offers (candidateArgs args offer), .offers (routeArgs args best)])
        else
          match session.serializeURL (routeArgs args best) with
          | .error e =>
            (.error e, [.offers (candidateArgs args offer), .offers (routeArgs args best),
              .link (routeArgs args best)])
          | .ok url =>
            (.ok (some
              { startDate := best.startDate
                returnDate := best.returnDate
                srcAirport := best.srcAirportCode
                dstAirport := best.dstAirportCode
                price := best.price
                tripLength := tripLength
                shareableLink := url }),
              [.offers (candidateArgs args offer), .offers (routeArgs args best),
                .link (routeArgs args best)])

/-- The first error received on the channel (cheapoffers.go:193-199,
`firstErr`). -/
def firstError : List TaskOutcome → Option Err
  | [] => none
  | .error e :: _ => some e
  | .ok _ :: rest => firstError rest

/-- The successful results received on the channel, in arrival order
(cheapoffers.go:200). -/
def okResults (outcomes : List TaskOutcome) : List Result :=
  outcomes.filterMap (fun o => match o with | .ok (some r) => some r | _ => none)

/-- Draining the channel (cheapoffers.go:188-207): if any task errored, the
first error wins and all partial results are discarded; otherwise the
collected results are returned. -/
def drainChannel (outcomes : List TaskOutcome) : Except Err (List Result) :=
  match firstError outcomes with
  | some e => .error e
  | none => .ok (okResults outcomes)

/-- The `flights.PriceGraphArgs` of the coarse lookup
(cheapoffers.go:68-78). -/
def priceGraphArgs (args : Args) (tripLength : Int) : PriceGraphArgs :=
  { rangeStartDate := args.rangeStartDate
    rangeEndDate := args.rangeEndDate
    tripLength := tripLength
    srcCities := args.srcCities
    dstCities := args.dstCities
    options := args.options }

/-- A channel schedule: reorders the task-outcome list into arrival order.
The canonical schedule is `id`; a faithful schedule is any permutation. -/
abbrev Sched := List TaskOutcome → List TaskOutcome

/-- `findForTripLength` (cheapoffers.go:67-208) with an explicit channel
arrival order `sched`: coarse lookup, one refinement task per candidate,
fan-in with first-error-wins. -/
def findForTripLengthSched (sched : Sched) (session : Session) (args : Args)
    (tripLength : Int) : Except Err (List Result) × List Call :=
  match session.getPriceGraph (priceGraphArgs args tripLength) with
  | .error e => (.error e, [.priceGraph (priceGraphArgs args tripLength)])
  | .ok priceGraphOffers =>
    (drainChannel
        (sched (priceGraphOffers.map fun o => (refineCandidate session args tripLength o).1)),
      .priceGraph (priceGraphArgs args tripLength) ::
        (priceGraphOffers.map fun o => (refineCandidate session args tripLength o).2).flatten)

/-- `findForTripLength` under the canonical (candidate-order) schedule. -/
def findForTripLength (session : Session) (args : Args) (tripLength : Int) :
    Except Err (List Result) × List Call :=
  findForTripLengthSched id session args tripLength

/-- The sort comparator passed to `sort.Slice` (cheapoffers.go:51-62). -/
def resultLess (a b : Result) : Bool :=
  if a.price = b.price then
    if a.startDate = b.startDate then
      if a.returnDate = b.returnDate then a.tripLength < b.tripLength
      else a.returnDate < b.returnDate
    else a.startDate < b.startDate
  else a.price < b.price

/-- The non-strict order induced by the comparator: `a` may precede `b`
exactly when the comparator does not demand `b` before `a`. A
comparator-respecting sort produces a sequence pairwise ordered by this. -/
def resultLE (a b : Result) : Prop := resultLess b a = false

instance : DecidableRel resultLE := fun a b => by
  unfold resultLE; infer_instance

/-- The batch loop over trip lengths (cheapoffers.go:43-49): sequential,
stopping at the first failing trip length. -/
def findLoop (sched : Sched) (session : Session) (args : Args) :
    List Int → Except Err (List Result) × List Call
  | [] => (.ok [], [])
  | tripLength :: rest =>
    match findForTripLengthSched sched session args tripLength with
    | (.error e, calls) => (.error e, calls)
    | (.ok found, calls) =>
      match findLoop sched session args rest with
      | (.error e, moreCalls) => (.error e, calls ++ moreCalls)
      | (.ok more, moreCalls) => (.ok (found ++ more), calls ++ moreCalls)

/-- `Find` (cheapoffers.go:36-65) with an explicit channel schedule:
validation, the per-trip-length loop, then the final sort. -/
def findSched (sched : Sched) (session : Session) (args : Args) :
    Except Err (List Result) × List Call :=
  match validateArgs args with
  | .error e => (.error e, [])
  | .ok _ =>
    match findLoop sched session args args.tripLengths with
    | (.error e, calls) => (.error e, calls)
    | (.ok allResults, calls) => (.ok (allResults.insertionSort resultLE), calls)

/-- `Find` under the canonical schedule. -/
def Find (session : Session) (args : Args) :
    Except Err (List Result) × List Call :=
  findSched id session args

/-! ### Specification of the best-offer selection loop -/

/-- Invariant of the selection fold: starting from an accumulator that never
holds a zero-priced offer, the fold yields `none` exactly on all-zero input,
and otherwise a nonzero-priced offer that is minimal among the nonzero-priced
offers seen and no more expensive than the initial accumulator. -/
lemma foldl_bestStep_spec (l : List FullOffer) :
    ∀ (acc : Option FullOffer), (∀ a, acc = some a → a.price ≠ 0) →
      (l.foldl bestStep acc = none → acc = none ∧ ∀ o ∈ l, o.price = 0)
      ∧ (∀ b, l.foldl bestStep acc = some b →
          b.price ≠ 0
          ∧ (acc = some b ∨ b ∈ l)
          ∧ (∀ o ∈ l, o.price ≠ 0 → b.price ≤ o.price)
          ∧ (∀ a, acc = some a → b.price ≤ a.price)) := by
  induction l with
  | nil =>
    intro acc hacc
    refine ⟨fun h => ⟨h, by simp⟩, fun b hb => ⟨hacc b hb, .inl hb, by simp, ?_⟩⟩
    intro a ha
    rw [List.foldl_nil, ha] at hb
    exact le_of_eq (congrArg FullOffer.price (Option.some.inj hb)).symm
  | cons o rest ih =>
    intro acc hacc
    rw [List.foldl_cons]
    by_cases h0 : o.price = 0
    · have hstep : bestStep acc o = acc := by simp [bestStep, h0]
      rw [hstep]
      obtain ⟨ih1, ih2⟩ := ih acc hacc
      constructor
      · intro h
        obtain ⟨ha, hall⟩ := ih1 h
        refine ⟨ha, fun x hx => ?_⟩
        rcases List.mem_cons.mp hx with rfl | hmem
        · exact h0
        · exact hall x hmem
      · intro b hb
        obtain ⟨hp, hmem, hmin, haccle⟩ := ih2 b hb
        refine ⟨hp, ?_, fun x hx hxp => ?_, haccle⟩
        · rcases hmem with h | h
          · exact .inl h
          · exact .inr (List.mem_cons_of_mem _ h)
        · rcases List.mem_cons.mp hx with rfl | hmem'
          · exact absurd h0 hxp
          · exact hmin x hmem' hxp
    · cases acc with
      | none =>
        have hstep : bestStep none o = some o := by simp [bestStep, h0]
        rw [hstep]
        have hacc' : ∀ a, some o = some a → a.price ≠ 0 := by
          intro a ha
          rw [← Option.some.inj ha]
          exact h0
        obtain ⟨ih1, ih2⟩ := ih (some o) hacc'
        constructor
        · intro h
          exact absurd (ih1 h).1 (by simp)
        · intro b hb
          obtain ⟨hp, hmem, hmin, haccle⟩ := ih2 b hb
          refine ⟨hp, .inr ?_, fun x hx hxp => ?_, fun a ha => by cases ha⟩
          · rcases hmem with h | h
            · rw [← Option.some.inj h]
              exact List.mem_cons_self o rest
            · exact List.mem_cons_of_mem _ h
          · rcases List.mem_cons.mp hx with rfl | hmem'
            · exact haccle x rfl
            · exact hmin x hmem' hxp
      | some acur =>
        by_cases hlt : o.price < acur.price
        · have hstep : bestStep (some acur) o = some o := by
            simp [bestStep, h0, hlt]
          rw [hstep]
          have hacc' : ∀ a, some o = some a → a.price ≠ 0 := by
            intro a ha
            rw [← Option.some.inj ha]
            exact h0
          obtain ⟨ih1, ih2⟩ := ih (some o) hacc'
          constructor
          · intro h
            exact absurd (ih1 h).1 (by simp)
          · intro b hb
            obtain ⟨hp, hmem, hmin, haccle⟩ := ih2 b hb
            refine ⟨hp, .inr ?_, fun x hx hxp => ?_, fun a ha => ?_⟩
            · rcases hmem with h | h
              · rw [← Option.some.inj h]
                exact List.mem_cons_self o rest
              · exact List.mem_cons_of_mem _ h
            · rcases List.mem_cons.mp hx with rfl | hmem'
              · exact haccle x rfl
              · exact hmin x hmem' hxp
            · rw [← Option.some.inj ha]
              exact le_of_lt (lt_of_le_of_lt (haccle o rfl) hlt)
        · have hstep : bestStep (some acur) o = some acur := by
            simp [bestStep, h0, hlt]
          rw [hstep]
          obtain ⟨ih1, ih2⟩ := ih (some acur) hacc
          constructor
          · intro h
            exact absurd (ih1 h).1 (by simp)
          · intro b hb
            obtain ⟨hp, hmem, hmin, haccle⟩ := ih2 b hb
            refine ⟨hp, ?_, fun x hx hxp => ?_, haccle⟩
            · rcases hmem with h | h
              · exact .inl h
              · exact .inr (List.mem_cons_of_mem _ h)
            · rcases List.mem_cons.mp hx with rfl | hmem'
              · exact le_trans (haccle acur rfl) (le_of_not_lt hlt)
              · exact hmin x hmem' hxp

/-- A selected winner is an input offer with nonzero price, minimal among the
nonzero-priced input offers. -/
lemma selectBestOffer_spec {l : List FullOffer} {b : FullOffer}
    (h : selectBestOffer l = some b) :
    b ∈ l ∧ b.price ≠ 0 ∧ ∀ o ∈ l, o.price ≠ 0 → b.price ≤ o.price := by
  obtain ⟨-, ih2⟩ := foldl_bestStep_spec l none (fun a ha => by cases ha)
  obtain ⟨hp, hmem, hmin, -⟩ := ih2 b h
  rcases hmem with h' | h'
  · cases h'
  · exact ⟨h', hp, hmin⟩

/-- No winner is selected exactly when every offer carries the zero
sentinel. -/
lemma selectBestOffer_eq_none {l : List FullOffer} :
    selectBestOffer l = none ↔ ∀ o ∈ l, o.price = 0 := by
  obtain ⟨ih1, ih2⟩ := foldl_bestStep_spec l none (fun a ha => by cases ha)
  constructor
  · intro h
    exact (ih1 h).2
  · intro hall
    cases hsel : selectBestOffer l with
    | none => rfl
    | some b =>
      obtain ⟨hp, hmem, -, -⟩ := ih2 b hsel
      rcases hmem with h' | h'
      · cases h'
      · exact absurd (hall b h') hp

/-! ### Inversion of one refinement task -/

/-- The `Result` a task builds from a winning offer and its link
(cheapoffers.go:169-179). -/
def mkResult (best : FullOffer) (tripLength : Int) (url : String) : Result :=
  { startDate := best.startDate
    returnDate := best.returnDate
    srcAirport := best.srcAirportCode
    dstAirport := best.dstAirportCode
    price := best.price
    tripLength := tripLength
    shareableLink := url }

/-- Inversion: a task emits a `Result` only after a successful offers fetch, a
nonzero winner, a present baseline beaten strictly, and a successful link
fetch; the `Result` copies the winner's fields. -/
lemma refineCandidate_ok_some {session : Session} {args : Args} {tripLength : Int}
    {offer : PriceGraphOffer} {r : Result}
    (h : (refineCandidate session args tripLength offer).1 = .ok (some r)) :
    ∃ fullOffers rng best offers2 pr url,
      session.getOffers (candidateArgs args offer) = .ok (fullOffers, rng)
      ∧ selectBestOffer fullOffers = some best
      ∧ session.getOffers (routeArgs args best) = .ok (offers2, some pr)
      ∧ best.price < pr.low
      ∧ session.serializeURL (routeArgs args best) = .ok url
      ∧ r = mkResult best tripLength url := by
  unfold refineCandidate at h
  split at h
  · simp at h
  next fullOffers snd heq =>
    split at h
    · simp at h
    next best hsel =>
      split at h
      · simp at h
      · simp at h
      next offers2 priceRange heq2 =>
        split at h
        · simp at h
        next hle =>
          split at h
          · simp at h
          next url heq3 =>
            simp only [Except.ok.injEq, Option.some.injEq] at h
            exact ⟨fullOffers, snd, best, offers2, priceRange, url, heq, hsel, heq2,
              not_le.mp hle, heq3, h.symm⟩

/-! ### Fan-in: the channel drain -/

/-- A successful drain means no task errored and the results are exactly the
successful sends, in arrival order. -/
lemma drainChannel_ok {outcomes : List TaskOutcome} {rs : List Result}
    (h : drainChannel outcomes = .ok rs) :
    rs = okResults outcomes ∧ firstError outcomes = none := by
  unfold drainChannel at h
  split at h
  · simp at h
  next hne => exact ⟨(Except.ok.inj h).symm, hne⟩

/-- Membership in the collected results is exactly a successful send. -/
lemma mem_okResults {outcomes : List TaskOutcome} {r : Result} :
    r ∈ okResults outcomes ↔ .ok (some r) ∈ outcomes := by
  unfold okResults
  rw [List.mem_filterMap]
  constructor
  · rintro ⟨o, ho, hfo⟩
    match o with
    | .error e => simp at hfo
    | .ok none => simp at hfo
    | .ok (some x) =>
      simp only [Option.some.injEq] at hfo
      rw [← hfo]
      exact ho
  · intro h
    exact ⟨.ok (some r), h, rfl⟩

/-- If every outcome is a silent skip, the drain returns the empty list. -/
lemma drainChannel_all_skip {outcomes : List TaskOutcome}
    (h : ∀ o ∈ outcomes, o = .ok none) : drainChannel outcomes = .ok [] := by
  induction outcomes with
  | nil => rfl
  | cons o rest ih =>
    have ho := h o (List.mem_cons_self o rest)
    subst ho
    have hrest := ih (fun o' ho' => h o' (List.mem_cons_of_mem _ ho'))
    unfold drainChannel at hrest ⊢
    rw [show firstError (Except.ok none :: rest) = firstError rest from rfl,
      show okResults (Except.ok none :: rest) = okResults rest from rfl]
    exact hrest

/-! ### Membership chain through the pipeline -/

/-- Every result of a per-trip-length search comes from a refinement task of
one of the coarse candidates of that search. -/
lemma findForTripLength_ok_mem {session : Session} {args : Args} {t : Int}
    {rs : List Result} {r : Result}
    (h : (findForTripLength session args t).1 = .ok rs) (hr : r ∈ rs) :
    ∃ cands, session.getPriceGraph (priceGraphArgs args t) = .ok cands
      ∧ ∃ c ∈ cands, (refineCandidate session args t c).1 = .ok (some r) := by
  unfold findForTripLength findForTripLengthSched at h
  split at h
  · simp at h
  next cands heq =>
    obtain ⟨hrs, -⟩ := drainChannel_ok h
    subst hrs
    rw [mem_okResults] at hr
    obtain ⟨c, hc, hco⟩ := List.mem_map.mp hr
    exact ⟨cands, heq, c, hc, hco⟩

/-- Every result of the batch loop comes from one of the requested trip
lengths' searches. -/
lemma findLoop_ok_mem {sched : Sched} {session : Session} {args : Args}
    {tls : List Int} {rs : List Result} {r : Result}
    (h : (findLoop sched session args tls).1 = .ok rs) (hr : r ∈ rs) :
    ∃ t ∈ tls, ∃ rs',
      (findForTripLengthSched sched session args t).1 = .ok rs' ∧ r ∈ rs' := by
  induction tls generalizing rs with
  | nil =>
    unfold findLoop at h
    simp only [Except.ok.injEq] at h
    subst h
    cases hr
  | cons t rest ih =>
    unfold findLoop at h
    split at h
    · simp at h
    next found calls heq =>
      split at h
      · simp at h
      next more moreCalls heq2 =>
        simp only [Except.ok.injEq] at h
        subst h
        rcases List.mem_append.mp hr with hmem | hmem
        · refine ⟨t, List.mem_cons_self t rest, found, ?_, hmem⟩
          rw [heq]
        · obtain ⟨t', ht', rs', hres, hmem'⟩ := ih (by rw [heq2]) hmem
          exact ⟨t', List.mem_cons_of_mem _ ht', rs', hres, hmem'⟩

/-- Every result of a successful `Find` comes from a refinement task of one of
the requested trip lengths. -/
lemma find_ok_mem {session : Session} {args : Args} {rs : List Result} {r : Result}
    (h : (Find session args).1 = .ok rs) (hr : r ∈ rs) :
    ∃ t ∈ args.tripLengths, ∃ cands,
      session.getPriceGraph (priceGraphArgs args t) = .ok cands
      ∧ ∃ c ∈ cands, (refineCandidate session args t c).1 = .ok (some r) := by
  unfold Find findSched at h
  split at h
  · simp at h
  split at h
  · simp at h
  next allResults calls heq =>
    simp only [Except.ok.injEq] at h
    subst h
    rw [List.mem_insertionSort] at hr
    obtain ⟨t, ht, rs', hres, hmem⟩ := findLoop_ok_mem (by rw [heq]) hr
    obtain ⟨cands, hpg, c, hc, hco⟩ := findForTripLength_ok_mem hres hmem
    exact ⟨t, ht, cands, hpg, c, hc, hco⟩

/-! ### Demonstration client used by the witnesses (the concrete scenario of
the spec: one candidate, offers priced 500 and 0, baseline low 600). -/

def demoOptions : Options := ⟨0⟩

def demoArgs : Args :=
  { rangeStartDate := 1
    rangeEndDate := 3
    tripLengths := [7]
    srcCities := ["San Francisco"]
    dstCities := ["New York"]
    options := demoOptions }

def demoCandidate : PriceGraphOffer := ⟨1, 8⟩

def demoOffer : FullOffer := ⟨1, 8, "SFO", "JFK", 500⟩

def demoZeroOffer : FullOffer := ⟨1, 8, "SFO", "JFK", 0⟩

def demoSession : Session :=
  { getPriceGraph := fun a => if a.tripLength = 7 then .ok [demoCandidate] else .ok []
    getOffers := fun a =>
      if a.srcAirports = [] then .ok ([demoOffer, demoZeroOffer], none)
      else .ok ([], some ⟨600, 900⟩)
    serializeURL := fun _ => .ok "https://flights.example/demo" }

def demoResult : Result :=
  { startDate := 1
    returnDate := 8
    srcAirport := "SFO"
    dstAirport := "JFK"
    price := 500
    tripLength := 7
    shareableLink := "https://flights.example/demo" }

/-! ### C1: every returned result strictly beats its route baseline -/

/-- The `flights.Args` of the baseline lookup, reconstructed from a `Result`'s
own fields (the same airport pair and dates the result carries). -/
def resultRouteArgs (args : Args) (r : Result) : FlightsArgs :=
  { date := r.startDate
    returnDate := r.returnDate
    srcCities := []
    dstCities := []
    srcAirports := [r.srcAirport]
    dstAirports := [r.dstAirport]
    options := args.options }

/-- C1: for every successful call to `Find`, every `Result` in the returned
list has a price strictly less than the `low` bound of the route baseline
fetched for that result's exact airport pair and dates; no result with price
`≥` that bound is ever emitted. -/
theorem find_results_beat_baseline (session : Session) (args : Args)
    (rs : List Result) (r : Result)
    (h : (Find session args).1 = .ok rs) (hr : r ∈ rs) :
    ∃ offers2 pr,
      session.getOffers (resultRouteArgs args r) = .ok (offers2, some pr)
      ∧ r.price < pr.low := by
  obtain ⟨t, ht, cands, hpg, c, hc, hco⟩ := find_ok_mem h hr
  obtain ⟨fullOffers, rng, best, offers2, pr, url, h1, h2, h3, h4, h5, h6⟩ :=
    refineCandidate_ok_some hco
  subst h6
  exact ⟨offers2, pr, h3, h4⟩

/-- Witness for C1 on the demonstration client. -/
theorem find_results_beat_baseline_witness :
    ∃ offers2 pr,
      demoSession.getOffers (resultRouteArgs demoArgs demoResult) = .ok (offers2, some pr)
      ∧ demoResult.price < pr.low :=
  find_results_beat_baseline demoSession demoArgs [demoResult] demoResult rfl
    (List.mem_singleton.mpr rfl)

/-! ### C3: a result's price is the minimum nonzero detailed-offer price -/

/-- C3: every `Result` emitted by a refinement task has as price the minimum
nonzero price among the detailed offers fetched for that task's candidate
(zero-priced offers are excluded from the minimum). -/
theorem result_price_min_nonzero (session : Session) (args : Args)
    (tripLength : Int) (offer : PriceGraphOffer) (r : Result)
    (h : (refineCandidate session args tripLength offer).1 = .ok (some r)) :
    ∃ fullOffers rng,
      session.getOffers (candidateArgs args offer) = .ok (fullOffers, rng)
      ∧ (∃ o ∈ fullOffers, o.price ≠ 0 ∧ r.price = o.price)
      ∧ ∀ o ∈ fullOffers, o.price ≠ 0 → r.price ≤ o.price := by
  obtain ⟨fullOffers, rng, best, offers2, pr, url, h1, h2, h3, h4, h5, h6⟩ :=
    refineCandidate_ok_some h
  obtain ⟨hmem, hnz, hmin⟩ := selectBestOffer_spec h2
  subst h6
  exact ⟨fullOffers, rng, h1, ⟨best, hmem, hnz, rfl⟩, hmin⟩

/-- Witness for C3 on the demonstration client. -/
theorem result_price_min_nonzero_witness :
    ∃ fullOffers rng,
      demoSession.getOffers (candidateArgs demoArgs demoCandidate) = .ok (fullOffers, rng)
      ∧ (∃ o ∈ fullOffers, o.price ≠ 0 ∧ demoResult.price = o.price)
      ∧ ∀ o ∈ fullOffers, o.price ≠ 0 → demoResult.price ≤ o.price :=
  result_price_min_nonzero demoSession demoArgs 7 demoCandidate demoResult rfl

/-! ### C2: the output ordering -/

/-- The ordering the spec describes: ascending by price, ties broken by
departure date, then return date, then trip length. -/
def keyLE (a b : Result) : Prop :=
  a.price < b.price ∨ (a.price = b.price ∧
    (a.startDate < b.startDate ∨ (a.startDate = b.startDate ∧
      (a.returnDate < b.returnDate ∨ (a.returnDate = b.returnDate ∧
        a.tripLength ≤ b.tripLength)))))

/-- One layer of the comparator: refusing to put `y` first is exactly the
strict-or-tie-and-recurse order. -/
lemma lexLayer {α : Type} [LinearOrder α] (x y : α) (rest : Bool) (K : Prop)
    (hrest : rest = false ↔ K) :
    (if y = x then rest else decide (y < x)) = false ↔ (x < y ∨ (x = y ∧ K)) := by
  by_cases h : y = x
  · subst h
    rw [if_pos rfl, hrest]
    constructor
    · intro hk
      exact .inr ⟨rfl, hk⟩
    · rintro (hlt | ⟨-, hk⟩)
      · exact absurd hlt (lt_irrefl y)
      · exact hk
  · rw [if_neg h, decide_eq_false_iff_not, not_lt]
    constructor
    · intro hle
      exact .inl (lt_of_le_of_ne hle (Ne.symm h))
    · rintro (hlt | ⟨heq, -⟩)
      · exact le_of_lt hlt
      · exact absurd heq.symm h

/-- The comparator-induced order coincides with the spec's tuple order. -/
lemma resultLE_iff_keyLE (a b : Result) : resultLE a b ↔ keyLE a b := by
  unfold resultLE resultLess keyLE
  refine lexLayer a.price b.price _ _ ?_
  refine lexLayer a.startDate b.startDate _ _ ?_
  refine lexLayer a.returnDate b.returnDate _ _ ?_
  rw [decide_eq_false_iff_not, not_lt]

instance : IsTotal Result resultLE := by
  constructor
  intro a b
  rw [resultLE_iff_keyLE, resultLE_iff_keyLE]
  unfold keyLE
  rcases lt_trichotomy a.price b.price with h | h | h
  · exact .inl (.inl h)
  · rcases lt_trichotomy a.startDate b.startDate with h' | h' | h'
    · exact .inl (.inr ⟨h, .inl h'⟩)
    · rcases lt_trichotomy a.returnDate b.returnDate with h'' | h'' | h''
      · exact .inl (.inr ⟨h, .inr ⟨h', .inl h''⟩⟩)
      · rcases le_total a.tripLength b.tripLength with h3 | h3
        · exact .inl (.inr ⟨h, .inr ⟨h', .inr ⟨h'', h3⟩⟩⟩)
        · exact .inr (.inr ⟨h.symm, .inr ⟨h'.symm, .inr ⟨h''.symm, h3⟩⟩⟩)
      · exact .inr (.inr ⟨h.symm, .inr ⟨h'.symm, .inl h''⟩⟩)
    · exact .inr (.inr ⟨h.symm, .inl h'⟩)
  · exact .inr (.inl h)

instance : IsTrans Result resultLE := by
  constructor
  intro a b c hab hbc
  rw [resultLE_iff_keyLE] at hab hbc ⊢
  unfold keyLE at hab hbc ⊢
  rcases hab with h1 | ⟨h1, hab⟩
  · rcases hbc with h2 | ⟨h2, -⟩
    · exact .inl (h1.trans h2)
    · exact .inl (h2 ▸ h1)
  · rcases hbc with h2 | ⟨h2, hbc⟩
    · exact .inl (h1 ▸ h2)
    · refine .inr ⟨h1.trans h2, ?_⟩
      rcases hab with h3 | ⟨h3, hab⟩
      · rcases hbc with h4 | ⟨h4, -⟩
        · exact .inl (h3.trans h4)
        · exact .inl (h4 ▸ h3)
      · rcases hbc with h4 | ⟨h4, hbc⟩
        · exact .inl (h3 ▸ h4)
        · refine .inr ⟨h3.trans h4, ?_⟩
          rcases hab with h5 | ⟨h5, hab⟩
          · rcases hbc with h6 | ⟨h6, -⟩
            · exact .inl (h5.trans h6)
            · exact .inl (h6 ▸ h5)
          · rcases hbc with h6 | ⟨h6, hbc⟩
            · exact .inl (h5 ▸ h6)
            · exact .inr ⟨h5.trans h6, hab.trans hbc⟩

/-- C2: the output of every successful `Find` is sorted ascending by price,
ties broken by departure date, then return date, then trip length; in
particular no adjacent pair violates this order. -/
theorem find_results_sorted (session : Session) (args : Args) (rs : List Result)
    (h : (Find session args).1 = .ok rs) : rs.Pairwise keyLE := by
  unfold Find findSched at h
  split at h
  · simp at h
  split at h
  · simp at h
  next allResults calls heq =>
    simp only [Except.ok.injEq] at h
    subst h
    exact (List.sorted_insertionSort resultLE allResults).imp
      fun hab => (resultLE_iff_keyLE _ _).mp hab

/-! ### A second demonstration client: two trip lengths, prices 500 and 300 -/

def demoArgs2 : Args :=
  { rangeStartDate := 1
    rangeEndDate := 3
    tripLengths := [7, 10]
    srcCities := ["San Francisco"]
    dstCities := ["New York"]
    options := demoOptions }

def demoSession2 : Session :=
  { getPriceGraph := fun a =>
      if a.tripLength = 7 then .ok [⟨1, 8⟩]
      else if a.tripLength = 10 then .ok [⟨2, 12⟩]
      else .ok []
    getOffers := fun a =>
      if a.srcAirports = [] then
        if a.date = 1 then .ok ([⟨1, 8, "AAA", "BBB", 500⟩], none)
        else .ok ([⟨2, 12, "CCC", "DDD", 300⟩], none)
      else .ok ([], some ⟨600, 900⟩)
    serializeURL := fun a => if a.date = 1 then .ok "L1" else .ok "L2" }

def demoR500 : Result := ⟨1, 8, "AAA", "BBB", 500, 7, "L1"⟩

def demoR300 : Result := ⟨2, 12, "CCC", "DDD", 300, 10, "L2"⟩

/-- Witness for C2 on the two-trip-length demonstration client: the cheaper
trip length 10 result precedes the trip length 7 one. -/
theorem find_results_sorted_witness : ([demoR300, demoR500] : List Result).Pairwise keyLE :=
  find_results_sorted demoSession2 demoArgs2 [demoR300, demoR500] rfl

/-! ### C6: validation -/

/-- `validateArgs` rejects exactly the five malformed-request conditions. -/
lemma validateArgs_error_iff (args : Args) :
    (∃ e, validateArgs args = .error e) ↔
      (args.tripLengths = [] ∨ (∃ l ∈ args.tripLengths, l ≤ 0)
        ∨ args.rangeEndDate < args.rangeStartDate
        ∨ args.srcCities = [] ∨ args.dstCities = []) := by
  unfold validateArgs
  split_ifs with h1 h2 h3 h4 h5
  · exact iff_of_true ⟨_, rfl⟩ (.inl (List.isEmpty_iff.mp h1))
  · obtain ⟨l, hl, hle⟩ := List.any_eq_true.mp h2
    exact iff_of_true ⟨_, rfl⟩ (.inr (.inl ⟨l, hl, of_decide_eq_true hle⟩))
  · exact iff_of_true ⟨_, rfl⟩ (.inr (.inr (.inl h3)))
  · exact iff_of_true ⟨_, rfl⟩ (.inr (.inr (.inr (.inl (List.isEmpty_iff.mp h4)))))
  · exact iff_of_true ⟨_, rfl⟩
      (.inr (.inr (.inr (.inr (List.isEmpty_iff.mp h5)))))
  · constructor
    · rintro ⟨e, he⟩
      cases he
    · rintro (h | ⟨l, hl, hle⟩ | h | h | h)
      · exact absurd (by rw [h]; rfl : args.tripLengths.isEmpty = true) h1
      · exact absurd (List.any_eq_true.mpr ⟨l, hl, decide_eq_true hle⟩) h2
      · exact absurd h h3
      · exact absurd (by rw [h]; rfl : args.srcCities.isEmpty = true) h4
      · exact absurd (by rw [h]; rfl : args.dstCities.isEmpty = true) h5

/-- Every per-trip-length search records the coarse price-graph lookup as its
first client call. -/
lemma findForTripLengthSched_trace_head (sched : Sched) (session : Session)
    (args : Args) (t : Int) :
    ∃ tail, (findForTripLengthSched sched session args t).2
      = .priceGraph (priceGraphArgs args t) :: tail := by
  unfold findForTripLengthSched
  split
  · exact ⟨[], rfl⟩
  · exact ⟨_, rfl⟩

/-- With at least one trip length requested, the batch loop issues at least
one client call. -/
lemma findLoop_trace_ne_nil (sched : Sched) (session : Session) (args : Args)
    (t : Int) (rest : List Int) :
    (findLoop sched session args (t :: rest)).2 ≠ [] := by
  obtain ⟨tail, htr⟩ := findForTripLengthSched_trace_head sched session args t
  unfold findLoop
  split
  next e calls heq =>
    rw [heq] at htr
    simp only at htr
    rw [htr]
    simp
  next found calls heq =>
    rw [heq] at htr
    simp only at htr
    split
    · rw [htr]
      simp
    · rw [htr]
      simp

/-- Once validation passes, `Find` is the batch loop followed by the final
sort. -/
lemma findSched_eq_of_valid {sched : Sched} {session : Session} {args : Args}
    {u : Unit} (hv : validateArgs args = .ok u) :
    findSched sched session args =
      match findLoop sched session args args.tripLengths with
      | (.error e, calls) => (.error e, calls)
      | (.ok allResults, calls) => (.ok (allResults.insertionSort resultLE), calls) := by
  unfold findSched
  rw [hv]

/-- C6: `Find` fails while issuing zero pricing-client calls exactly when the
request is malformed (empty trip-length list, a nonpositive trip length, end
date before start date, empty source cities, or empty destination cities);
and whenever `validateArgs` rejects, `Find` returns exactly that error with an
empty call trace. -/
theorem find_invalid_request (session : Session) (args : Args) :
    ((∃ e, Find session args = (.error e, [])) ↔
      (args.tripLengths = [] ∨ (∃ l ∈ args.tripLengths, l ≤ 0)
        ∨ args.rangeEndDate < args.rangeStartDate
        ∨ args.srcCities = [] ∨ args.dstCities = []))
    ∧ ∀ e, validateArgs args = .error e → Find session args = (.error e, []) := by
  have hval := validateArgs_error_iff args
  constructor
  · constructor
    · rintro ⟨e, he⟩
      apply hval.mp
      cases hv : validateArgs args with
      | error e' => exact ⟨e', rfl⟩
      | ok u =>
        exfalso
        have hnotcond : ¬ (args.tripLengths = [] ∨ (∃ l ∈ args.tripLengths, l ≤ 0)
            ∨ args.rangeEndDate < args.rangeStartDate
            ∨ args.srcCities = [] ∨ args.dstCities = []) := by
          intro hc
          obtain ⟨e', he'⟩ := hval.mpr hc
          rw [hv] at he'
          exact Except.noConfusion he'
        cases htl : args.tripLengths with
        | nil => exact hnotcond (.inl htl)
        | cons t rest =>
          unfold Find at he
          rw [findSched_eq_of_valid hv, htl] at he
          have hne := findLoop_trace_ne_nil id session args t rest
          split at he
          next e2 calls heq =>
            rw [Prod.mk.injEq] at he
            apply hne
            rw [heq]
            exact he.2
          next found calls heq =>
            rw [Prod.mk.injEq] at he
            exact Except.noConfusion he.1
    · intro hcond
      obtain ⟨e, he⟩ := hval.mpr hcond
      refine ⟨e, ?_⟩
      unfold Find findSched
      rw [he]
  · intro e he
    unfold Find findSched
    rw [he]

/-- The malformed request used by the C6 witness: no source cities. -/
def invalidArgs : Args :=
  { rangeStartDate := 1
    rangeEndDate := 3
    tripLengths := [7]
    srcCities := []
    dstCities := ["New York"]
    options := demoOptions }

/-- Witness for C6: an empty source-city set is rejected with no client
calls. -/
theorem find_invalid_request_witness :
    Find demoSession invalidArgs = (.error "at least one source city is required", []) :=
  (find_invalid_request demoSession invalidArgs).2 _ rfl

/-! ### C5: the first failing trip length aborts the batch -/

/-- If every trip length before `T` succeeds and `T`'s search fails, the batch
loop stops at `T`: it returns `T`'s error and its trace contains only the
calls of the searches up to and including `T`. -/
lemma findLoop_fail (sched : Sched) (session : Session) (args : Args) :
    ∀ (pre : List Int) (T : Int) (post : List Int),
      (∀ t ∈ pre, ∃ rs, (findForTripLengthSched sched session args t).1 = .ok rs) →
      ∀ e, (findForTripLengthSched sched session args T).1 = .error e →
      findLoop sched session args (pre ++ T :: post) =
        (.error e,
          (pre.map fun t => (findForTripLengthSched sched session args t).2).flatten
            ++ (findForTripLengthSched sched session args T).2) := by
  intro pre
  induction pre with
  | nil =>
    intro T post hok e hbad
    rw [List.nil_append]
    unfold findLoop
    split
    next e2 calls heq =>
      rw [heq] at hbad ⊢
      simp only at hbad
      simp [Except.error.inj hbad]
    next found calls heq =>
      rw [heq] at hbad
      simp at hbad
  | cons t pre' ih =>
    intro T post hok e hbad
    rw [List.cons_append]
    unfold findLoop
    split
    next e2 calls heq =>
      obtain ⟨rs, hrs⟩ := hok t (List.mem_cons_self t pre')
      rw [heq] at hrs
      simp at hrs
    next found calls heq =>
      rw [ih T post (fun t' ht' => hok t' (List.mem_cons_of_mem _ ht')) e hbad]
      simp only [List.map_cons, List.flatten_cons, List.append_assoc]
      rw [heq]

/-- C5: if the searches for the trip lengths before `T` succeed and `T`'s
search fails, `Find` returns `T`'s error with zero results, and its client
calls are exactly those of the searches up to and including `T` — the trip
lengths after `T` are never started. -/
theorem find_fail_fast (session : Session) (args : Args) (pre : List Int)
    (T : Int) (post : List Int) (e : Err)
    (hsplit : args.tripLengths = pre ++ T :: post)
    (hvalid : validateArgs args = .ok ())
    (hok : ∀ t ∈ pre, ∃ rs, (findForTripLength session args t).1 = .ok rs)
    (hbad : (findForTripLength session args T).1 = .error e) :
    Find session args =
      (.error e,
        (pre.map fun t => (findForTripLength session args t).2).flatten
          ++ (findForTripLength session args T).2) := by
  unfold Find
  rw [findSched_eq_of_valid hvalid, hsplit,
    findLoop_fail id session args pre T post hok e hbad]
  rfl

/-- The client used by the C5 witness: trip length 7 yields no candidates,
trip length 10's coarse lookup fails, trip length 12 is never reached. -/
def failSession : Session :=
  { getPriceGraph := fun a =>
      if a.tripLength = 10 then .error "price graph unavailable" else .ok []
    getOffers := fun _ => .ok ([], none)
    serializeURL := fun _ => .ok "unused" }

def failArgs : Args :=
  { rangeStartDate := 1
    rangeEndDate := 3
    tripLengths := [7, 10, 12]
    srcCities := ["San Francisco"]
    dstCities := ["New York"]
    options := demoOptions }

/-- Witness for C5: the failure of trip length 10 aborts the batch; only the
lookups for 7 and 10 are ever issued. -/
theorem find_fail_fast_witness :
    Find failSession failArgs =
      (.error "price graph unavailable",
        (([7] : List Int).map fun t => (findForTripLength failSession failArgs t).2).flatten
          ++ (findForTripLength failSession failArgs 10).2) :=
  find_fail_fast failSession failArgs [7] 10 [12] "price graph unavailable" rfl rfl
    (by
      intro t ht
      rw [List.mem_singleton] at ht
      subst ht
      exact ⟨[], rfl⟩)
    rfl

/-! ### C4: winner selection and the zero sentinel -/

/-- A negatively priced offer: Go `float64` admits it, and the loop only
filters out prices equal to `0`. -/
def negOffer : FullOffer := ⟨1, 8, "NAA", "NBB", -2⟩

def negZeroOffer : FullOffer := ⟨1, 8, "NAA", "NBB", 0⟩

/-- A client whose detailed offers carry a negative and a zero price. -/
def negSession : Session :=
  { getPriceGraph := fun _ => .ok [⟨1, 8⟩]
    getOffers := fun a =>
      if a.srcAirports = [] then .ok ([negOffer, negZeroOffer], none)
      else .ok ([], some ⟨5, 9⟩)
    serializeURL := fun _ => .ok "neg-link" }

/-- Counterexample to C4 as stated: with offers priced `-2` and `0`, no offer
has a strictly positive price, yet the task selects the `-2` offer — a
non-positive winner — and emits a `Result` instead of producing nothing. -/
theorem refine_selects_nonpositive :
    (∀ o ∈ [negOffer, negZeroOffer], ¬ 0 < o.price)
    ∧ selectBestOffer [negOffer, negZeroOffer] = some negOffer
    ∧ negOffer.price ≤ 0
    ∧ (refineCandidate negSession demoArgs 7 ⟨1, 8⟩).1
        = .ok (some ⟨1, 8, "NAA", "NBB", -2, 7, "neg-link"⟩) :=
  ⟨by decide, rfl, by decide, rfl⟩

/-- C4 amended (nonzero instead of strictly positive): a refinement task
selects the cheapest offer with a nonzero price; when every fetched offer
carries the zero sentinel (or the list is empty) the task produces no
`Result` and no error, and a zero-priced offer is never selected as the
winner. -/
theorem refine_nonzero_winner (session : Session) (args : Args) (tripLength : Int)
    (offer : PriceGraphOffer) (fullOffers : List FullOffer) (rng : Option PriceRange)
    (hoff : session.getOffers (candidateArgs args offer) = .ok (fullOffers, rng)) :
    ((∀ o ∈ fullOffers, o.price = 0) →
      (refineCandidate session args tripLength offer).1 = .ok none)
    ∧ ∀ best, selectBestOffer fullOffers = some best →
        best ∈ fullOffers ∧ best.price ≠ 0
          ∧ ∀ o ∈ fullOffers, o.price ≠ 0 → best.price ≤ o.price := by
  constructor
  · intro hz
    unfold refineCandidate
    split
    next e heq =>
      rw [hoff] at heq
      cases heq
    next fullOffers' snd heq =>
      rw [hoff] at heq
      obtain ⟨rfl, rfl⟩ : fullOffers = fullOffers' ∧ rng = snd := by
        have hp := Except.ok.inj heq
        exact ⟨congrArg Prod.fst hp, congrArg Prod.snd hp⟩
      split
      · rfl
      next best hsel =>
        rw [selectBestOffer_eq_none.mpr hz] at hsel
        cases hsel
  · intro best hsel
    exact selectBestOffer_spec hsel

/-- A client whose detailed offers are all zero-priced. -/
def zeroSession : Session :=
  { getPriceGraph := fun _ => .ok [⟨1, 8⟩]
    getOffers := fun a =>
      if a.srcAirports = [] then .ok ([⟨1, 8, "ZAA", "ZBB", 0⟩], none)
      else .ok ([], some ⟨100, 200⟩)
    serializeURL := fun _ => .ok "zero-link" }

/-- Witness for the amended C4 on the all-zero client. -/
theorem refine_nonzero_winner_witness :
    ((∀ o ∈ [(⟨1, 8, "ZAA", "ZBB", 0⟩ : FullOffer)], o.price = 0) →
      (refineCandidate zeroSession demoArgs 7 ⟨1, 8⟩).1 = .ok none)
    ∧ ∀ best, selectBestOffer [(⟨1, 8, "ZAA", "ZBB", 0⟩ : FullOffer)] = some best →
        best ∈ [(⟨1, 8, "ZAA", "ZBB", 0⟩ : FullOffer)] ∧ best.price ≠ 0
          ∧ ∀ o ∈ [(⟨1, 8, "ZAA", "ZBB", 0⟩ : FullOffer)], o.price ≠ 0 → best.price ≤ o.price :=
  refine_nonzero_winner zeroSession demoArgs 7 ⟨1, 8⟩
    [⟨1, 8, "ZAA", "ZBB", 0⟩] none rfl

/-! ### C7: silent skips and the empty successful batch -/

/-- If every candidate of a trip length refines to a silent skip, its search
succeeds with no results. -/
lemma findForTripLength_all_skip {session : Session} {args : Args} {t : Int}
    {cands : List PriceGraphOffer}
    (hpg : session.getPriceGraph (priceGraphArgs args t) = .ok cands)
    (hall : ∀ c ∈ cands, (refineCandidate session args t c).1 = .ok none) :
    (findForTripLength session args t).1 = .ok [] := by
  unfold findForTripLength findForTripLengthSched
  split
  next e heq =>
    rw [hpg] at heq
    cases heq
  next cands' heq =>
    rw [hpg] at heq
    obtain rfl := Except.ok.inj heq
    apply drainChannel_all_skip
    intro o ho
    obtain ⟨c, hc, hco⟩ := List.mem_map.mp ho
    rw [← hco]
    exact hall c hc

/-- If every trip length's search succeeds with no results, the batch loop
succeeds with no results. -/
lemma findLoop_all_skip {session : Session} {args : Args} :
    ∀ tls : List Int, (∀ t ∈ tls, (findForTripLength session args t).1 = .ok []) →
      (findLoop id session args tls).1 = .ok [] := by
  intro tls
  induction tls with
  | nil => intro _; rfl
  | cons t rest ih =>
    intro h
    have ht := h t (List.mem_cons_self t rest)
    unfold findForTripLength at ht
    unfold findLoop
    split
    next e calls heq =>
      rw [heq] at ht
      cases ht
    next found calls heq =>
      rw [heq] at ht
      obtain rfl := Except.ok.inj ht
      have hrest := ih (fun t' ht' => h t' (List.mem_cons_of_mem _ ht'))
      split
      next e2 mc heq2 =>
        rw [heq2] at hrest
        cases hrest
      next more mc heq2 =>
        rw [heq2] at hrest
        obtain rfl := Except.ok.inj hrest
        rfl

/-- An offer with a negative price and no siblings: no strictly positive
price exists in the list. -/
def lossOffer : FullOffer := ⟨2, 9, "PAA", "PBB", -1⟩

/-- A client returning only the negatively priced offer, with a baseline it
beats. -/
def lossSession : Session :=
  { getPriceGraph := fun _ => .ok [⟨2, 9⟩]
    getOffers := fun a =>
      if a.srcAirports = [] then .ok ([lossOffer], none)
      else .ok ([], some ⟨3, 6⟩)
    serializeURL := fun _ => .ok "loss-link" }

/-- Counterexample to C7 as stated: a candidate whose detailed-offer list has
no positive-price entries nevertheless contributes a `Result`. -/
theorem refine_no_positive_still_contributes :
    (∀ o ∈ [lossOffer], ¬ 0 < o.price)
    ∧ (refineCandidate lossSession demoArgs 7 ⟨2, 9⟩).1
        = .ok (some ⟨2, 9, "PAA", "PBB", -1, 7, "loss-link"⟩) :=
  ⟨by decide, rfl⟩

/-- C7 amended (nonzero instead of positive): a candidate with no
nonzero-price offers, or an absent baseline, or a winner that fails to beat
the baseline's low bound, contributes neither a `Result` nor an error; and a
call whose candidates all fall in these cases succeeds with an empty result
sequence. -/
theorem refine_skip_cases_and_empty_find (session : Session) (args : Args)
    (tripLength : Int) (offer : PriceGraphOffer) :
    (∀ fullOffers rng,
      session.getOffers (candidateArgs args offer) = .ok (fullOffers, rng) →
      (((∀ o ∈ fullOffers, o.price = 0) →
          (refineCandidate session args tripLength offer).1 = .ok none)
        ∧ (∀ best offers2, selectBestOffer fullOffers = some best →
            session.getOffers (routeArgs args best) = .ok (offers2, none) →
            (refineCandidate session args tripLength offer).1 = .ok none)
        ∧ (∀ best offers2 pr, selectBestOffer fullOffers = some best →
            session.getOffers (routeArgs args best) = .ok (offers2, some pr) →
            pr.low ≤ best.price →
            (refineCandidate session args tripLength offer).1 = .ok none)))
    ∧ (validateArgs args = .ok () →
        (∀ t ∈ args.tripLengths, ∃ cands,
          session.getPriceGraph (priceGraphArgs args t) = .ok cands
          ∧ ∀ c ∈ cands, (refineCandidate session args t c).1 = .ok none) →
        (Find session args).1 = .ok []) := by
  constructor
  · intro fullOffers rng hoff
    have hinv : ∀ fullOffers' snd,
        session.getOffers (candidateArgs args offer) = .ok (fullOffers', snd) →
        fullOffers' = fullOffers := by
      intro fullOffers' snd heq
      rw [hoff] at heq
      exact (congrArg Prod.fst (Except.ok.inj heq)).symm
    refine ⟨?_, ?_, ?_⟩
    · intro hz
      exact ((refine_nonzero_winner session args tripLength offer fullOffers rng hoff).1) hz
    · intro best offers2 hsel hroute
      unfold refineCandidate
      split
      next e heq =>
        rw [hoff] at heq
        cases heq
      next fullOffers' snd heq =>
        obtain rfl := hinv fullOffers' snd heq
        split
        · rfl
        next best' hsel' =>
          rw [hsel] at hsel'
          obtain rfl := Option.some.inj hsel'
          split
          next e heq2 =>
            rw [hroute] at heq2
            cases heq2
          next offers2' heq2 => rfl
          next offers2' pr heq2 =>
            rw [hroute] at heq2
            have := congrArg Prod.snd (Except.ok.inj heq2)
            cases this
    · intro best offers2 pr hsel hroute hle
      unfold refineCandidate
      split
      next e heq =>
        rw [hoff] at heq
        cases heq
      next fullOffers' snd heq =>
        obtain rfl := hinv fullOffers' snd heq
        split
        · rfl
        next best' hsel' =>
          rw [hsel] at hsel'
          obtain rfl := Option.some.inj hsel'
          split
          next e heq2 =>
            rw [hroute] at heq2
            cases heq2
          next offers2' heq2 => rfl
          next offers2' pr' heq2 =>
            rw [hroute] at heq2
            obtain rfl : pr = pr' := by
              have := congrArg Prod.snd (Except.ok.inj heq2)
              exact Option.some.inj this
            rw [if_pos hle]
  · intro hvalid hall
    have hloop : (findLoop id session args args.tripLengths).1 = .ok [] := by
      apply findLoop_all_skip
      intro t ht
      obtain ⟨cands, hpg, hskip⟩ := hall t ht
      exact findForTripLength_all_skip hpg hskip
    unfold Find
    rw [findSched_eq_of_valid hvalid]
    split
    next e calls heq =>
      rw [heq] at hloop
      cases hloop
    next found calls heq =>
      rw [heq] at hloop
      obtain rfl := Except.ok.inj hloop
      rfl

/-- Witness for the amended C7: a client whose only candidate's winner fails
to beat its baseline yields a successful, empty `Find`. -/
def skipSession : Session :=
  { getPriceGraph := fun _ => .ok [⟨1, 8⟩]
    getOffers := fun a =>
      if a.srcAirports = [] then .ok ([⟨1, 8, "SAA", "SBB", 700⟩], none)
      else .ok ([], some ⟨650, 900⟩)
    serializeURL := fun _ => .ok "skip-link" }

/-- Witness for the amended C7 on `skipSession` (winner 700 does not beat the
baseline low of 650, so the batch succeeds empty). -/
theorem refine_skip_cases_and_empty_find_witness :
    (Find skipSession demoArgs).1 = .ok [] :=
  (refine_skip_cases_and_empty_find skipSession demoArgs 7 ⟨1, 8⟩).2 rfl
    (by
      intro t ht
      have ht' : t ∈ [(7 : Int)] := ht
      rw [List.mem_singleton] at ht'
      subst ht'
      exact ⟨[⟨1, 8⟩], rfl, by
        intro c hc
        rw [List.mem_singleton] at hc
        subst hc
        rfl⟩)

/-! ### C10: one task per candidate, fields copied from the winning offer -/

/-- C10: a successful per-trip-length search returns at most one `Result` per
coarse candidate, and every returned `Result` copies its dates, airport codes
and price from the winning detailed offer of its candidate's refinement (not
from the coarse sample). -/
theorem findForTripLength_result_provenance (session : Session) (args : Args)
    (t : Int) (cands : List PriceGraphOffer) (rs : List Result)
    (hpg : session.getPriceGraph (priceGraphArgs args t) = .ok cands)
    (hok : (findForTripLength session args t).1 = .ok rs) :
    rs.length ≤ cands.length
    ∧ ∀ r ∈ rs, ∃ c ∈ cands, ∃ fullOffers rng best,
        session.getOffers (candidateArgs args c) = .ok (fullOffers, rng)
        ∧ selectBestOffer fullOffers = some best
        ∧ r.startDate = best.startDate ∧ r.returnDate = best.returnDate
        ∧ r.srcAirport = best.srcAirportCode ∧ r.dstAirport = best.dstAirportCode
        ∧ r.price = best.price ∧ r.tripLength = t := by
  constructor
  · unfold findForTripLength findForTripLengthSched at hok
    split at hok
    next e heq =>
      rw [hpg] at heq
      cases heq
    next cands' heq =>
      rw [hpg] at heq
      obtain rfl := Except.ok.inj heq
      obtain ⟨hrs, -⟩ := drainChannel_ok hok
      subst hrs
      calc (okResults (cands.map fun o => (refineCandidate session args t o).1)).length
          ≤ (cands.map fun o => (refineCandidate session args t o).1).length :=
            List.length_filterMap_le _ _
        _ = cands.length := List.length_map _ _
  · intro r hr
    obtain ⟨cands', hpg', c, hc, hco⟩ := findForTripLength_ok_mem hok hr
    rw [hpg] at hpg'
    obtain rfl := Except.ok.inj hpg'
    obtain ⟨fullOffers, rng, best, offers2, pr, url, h1, h2, h3, h4, h5, h6⟩ :=
      refineCandidate_ok_some hco
    subst h6
    exact ⟨c, hc, fullOffers, rng, best, h1, h2, rfl, rfl, rfl, rfl, rfl, rfl⟩

/-- Witness for C10 on the demonstration client. -/
theorem findForTripLength_result_provenance_witness :
    ([demoResult] : List Result).length ≤ ([demoCandidate] : List PriceGraphOffer).length
    ∧ ∀ r ∈ [demoResult], ∃ c ∈ [demoCandidate], ∃ fullOffers rng best,
        demoSession.getOffers (candidateArgs demoArgs c) = .ok (fullOffers, rng)
        ∧ selectBestOffer fullOffers = some best
        ∧ r.startDate = best.startDate ∧ r.returnDate = best.returnDate
        ∧ r.srcAirport = best.srcAirportCode ∧ r.dstAirport = best.dstAirportCode
        ∧ r.price = best.price ∧ r.tripLength = 7 :=
  findForTripLength_result_provenance demoSession demoArgs 7 [demoCandidate] [demoResult]
    rfl rfl

/-! ### C8: repeatability across channel schedules -/

/-- Two distinct winning offers that tie on price and dates but differ in
airport codes. -/
def tieOfferA : FullOffer := ⟨5, 12, "TAA", "TBB", 400⟩

def tieOfferB : FullOffer := ⟨5, 12, "TCC", "TDD", 400⟩

/-- A deterministic client under which two coarse candidates refine to
results with identical sort keys but different airports and links. -/
def tieSession : Session :=
  { getPriceGraph := fun _ => .ok [⟨1, 8⟩, ⟨2, 9⟩]
    getOffers := fun a =>
      if a.srcAirports = [] then
        if a.date = 1 then .ok ([tieOfferA], none) else .ok ([tieOfferB], none)
      else .ok ([], some ⟨450, 700⟩)
    serializeURL := fun a =>
      if a.srcAirports = ["TAA"] then .ok "tie-link-A" else .ok "tie-link-B" }

def tieResultA : Result := ⟨5, 12, "TAA", "TBB", 400, 7, "tie-link-A"⟩

def tieResultB : Result := ⟨5, 12, "TCC", "TDD", 400, 7, "tie-link-B"⟩

/-- Counterexample to C8 as stated: with the same deterministic client and
request, two runs that differ only in the channel arrival order (a legal
schedule: reversal is a permutation) return different output sequences — the
two results tie on the whole sort key, so the sort cannot restore a unique
order. -/
theorem find_not_schedule_invariant :
    (∀ l : List TaskOutcome, (List.reverse l).Perm l)
    ∧ (findSched List.reverse tieSession demoArgs).1 ≠ (findSched id tieSession demoArgs).1 := by
  constructor
  · exact fun l => List.reverse_perm l
  · have h1 : (findSched id tieSession demoArgs).1 = .ok [tieResultA, tieResultB] := rfl
    have h2 : (findSched List.reverse tieSession demoArgs).1 = .ok [tieResultB, tieResultA] := rfl
    rw [h1, h2]
    intro h
    have hl := Except.ok.inj h
    injection hl with hhd htl
    exact absurd (congrArg Result.srcAirport hhd) (by decide)

/-- `firstErr` is unset exactly when no task errored. -/
lemma firstError_eq_none_iff {l : List TaskOutcome} :
    firstError l = none ↔ ∀ e, Except.error e ∉ l := by
  induction l with
  | nil => simp [firstError]
  | cons o rest ih =>
    cases o with
    | error e =>
      exact iff_of_false (by simp [firstError]) (fun h => h e (List.mem_cons_self _ _))
    | ok v =>
      rw [show firstError (Except.ok v :: rest) = firstError rest from rfl, ih]
      constructor
      · intro h e he
        rcases List.mem_cons.mp he with heq | hmem
        · cases heq
        · exact h e hmem
      · intro h e he
        exact h e (List.mem_cons_of_mem _ he)

/-- A successful drain stays successful under any permutation of the arrival
order, with a permuted result list. -/
lemma drainChannel_perm {l1 l2 : List TaskOutcome} (hp : l1.Perm l2)
    {rs : List Result} (h : drainChannel l1 = .ok rs) :
    ∃ rs2, drainChannel l2 = .ok rs2 ∧ rs.Perm rs2 := by
  obtain ⟨hrs, hne⟩ := drainChannel_ok h
  subst hrs
  have hne2 : firstError l2 = none := by
    rw [firstError_eq_none_iff] at hne ⊢
    intro e he
    exact hne e (hp.mem_iff.mpr he)
  refine ⟨okResults l2, ?_, hp.filterMap _⟩
  unfold drainChannel
  rw [hne2]

/-- A per-trip-length search that succeeds under the canonical schedule
succeeds under every legal schedule, with a permuted result list. -/
lemma findForTripLengthSched_perm (sched : Sched) (hsched : ∀ l, (sched l).Perm l)
    (session : Session) (args : Args) (t : Int) {rs : List Result}
    (h : (findForTripLength session args t).1 = .ok rs) :
    ∃ rs2, (findForTripLengthSched sched session args t).1 = .ok rs2 ∧ rs.Perm rs2 := by
  unfold findForTripLength at h
  unfold findForTripLengthSched at h ⊢
  split at h
  · simp at h
  next cands heq =>
    exact drainChannel_perm (hsched _).symm h

/-- The batch loop inherits schedule insensitivity (up to permutation) from
the per-trip-length searches. -/
lemma findLoop_perm (sched : Sched) (hsched : ∀ l, (sched l).Perm l)
    (session : Session) (args : Args) :
    ∀ (tls : List Int) {rs : List Result},
      (findLoop id session args tls).1 = .ok rs →
      ∃ rs2, (findLoop sched session args tls).1 = .ok rs2 ∧ rs.Perm rs2 := by
  intro tls
  induction tls with
  | nil =>
    intro rs h
    obtain rfl := Except.ok.inj h
    exact ⟨[], rfl, List.Perm.refl []⟩
  | cons t rest ih =>
    intro rs h
    unfold findLoop at h ⊢
    split at h
    · simp at h
    next found calls heq =>
      split at h
      · simp at h
      next more mc heq2 =>
        obtain rfl := Except.ok.inj h
        obtain ⟨found2, hf2, hpf⟩ :=
          findForTripLengthSched_perm sched hsched session args t
            (by unfold findForTripLength; rw [heq])
        obtain ⟨more2, hm2, hpm⟩ := ih (by rw [heq2])
        split
        next e calls' heq' =>
          rw [heq'] at hf2
          simp at hf2
        next found' calls' heq' =>
          rw [heq'] at hf2
          obtain rfl : found' = found2 := Except.ok.inj hf2
          split
          next e mc' heq2' =>
            rw [heq2'] at hm2
            simp at hm2
          next more' mc' heq2' =>
            rw [heq2'] at hm2
            obtain rfl : more' = more2 := Except.ok.inj hm2
            exact ⟨found' ++ more', rfl, hpf.append hpm⟩

/-- C8 amended: with a deterministic client, a successful run's output is
determined up to permutation — any legal channel arrival order yields the
same multiset of results (and, by C2, a sorted sequence); the exact sequence
may differ only in the relative order of results sharing the whole sort
key. -/
theorem find_schedule_perm (sched : Sched) (hsched : ∀ l, (sched l).Perm l)
    (session : Session) (args : Args) (rs rs2 : List Result)
    (h1 : (Find session args).1 = .ok rs)
    (h2 : (findSched sched session args).1 = .ok rs2) :
    rs.Perm rs2 := by
  unfold Find at h1
  unfold findSched at h1 h2
  split at h1
  · simp at h1
  next u heqv =>
    split at h2
    next e heqv2 =>
      rw [heqv] at heqv2
      cases heqv2
    next u2 heqv2 =>
      split at h1
      · simp at h1
      next all1 calls1 heqL1 =>
        split at h2
        · simp at h2
        next all2 calls2 heqL2 =>
          obtain rfl := Except.ok.inj h1
          obtain rfl := Except.ok.inj h2
          obtain ⟨all2', hall2', hperm⟩ :=
            findLoop_perm sched hsched session args args.tripLengths (by rw [heqL1])
          rw [heqL2] at hall2'
          obtain rfl : all2 = all2' := Except.ok.inj hall2'
          exact ((List.perm_insertionSort resultLE all1).trans hperm).trans
            (List.perm_insertionSort resultLE all2).symm

/-- Witness for the amended C8: under the tie-key client, reversing the
arrival order permutes the two tied results but preserves the multiset. -/
theorem find_schedule_perm_witness :
    ([tieResultA, tieResultB] : List Result).Perm [tieResultB, tieResultA] :=
  find_schedule_perm List.reverse (fun l => List.reverse_perm l) tieSession demoArgs
    [tieResultA, tieResultB] [tieResultB, tieResultA] rfl rfl

end CheapOffers
